import Mathlib

/-!
# Workshop lifecycle, task sequencer, leaderboard and group-code model

A shallow embedding of the state-transition logic of the workshop admin
dashboard:

* `WorkshopTasksTab.tsx` — `toggleTaskActive`, `handleEndTask` (task
  sequencer over rows of `workshop_tasks`);
* `WorkshopOverviewTab.tsx` — `handleStartWorkshop`, `handleEndWorkshop`
  (workshop status state machine over rows of `workshops`);
* `WorkshopGroupsTab` (src/unnamed/part_000) — `generateCode`;
* `WorkshopLeaderboardTab` (staged as the second document inside
  `WorkshopParticipantsTab.tsx`, after the document separator) —
  `refreshLeaderboard`, `handleAdjustPoints` (leaderboard aggregator over
  rows of `workshop_leaderboard`).

Rows live in the backend tables; a handler issues one or more writes, each
of which may independently fail.  A table is modelled as a `List` of rows
and a filtered `update` as a map over the list that rewrites the rows the
filter selects, so row order is the fetch order the component sees.
Timestamps (`new Date().toISOString()`) are abstracted to a `Nat` supplied
to the handler.  Backend write success/failure is a `Bool` parameter where
a claim depends on it.
-/

namespace WorkshopApp

/-- A row of `workshop_tasks`, after the migration adding `is_ended`
(fields of the `Task` interface in `WorkshopTasksTab.tsx`, plus the
`workshop_id` foreign key the handlers filter on). -/
structure Task where
  id : Nat
  workshop_id : Nat
  title : String
  description : Option String
  points : Int
  timer_minutes : Option Int
  is_active : Bool
  is_ended : Bool
  task_order : Int
  start_time : Option Nat
deriving DecidableEq, Repr

/-- A row of `workshops` (the fields the overview tab touches). -/
structure Workshop where
  id : Nat
  status : String
  updated_at : Option Nat
deriving DecidableEq, Repr

/-- `supabase.from(table).update(payload).eq(col, v)`: rewrite every row the
filter selects, leave the rest untouched. -/
def updateWhere (p : Task → Bool) (f : Task → Task) (ts : List Task) : List Task :=
  ts.map fun t => if p t then f t else t

/-- The `{ is_active: false, is_ended: true }` payload used both by
`handleEndTask` and by the bulk write in `handleEndWorkshop`. -/
def endTaskWrite (t : Task) : Task :=
  { t with is_active := false, is_ended := true }

/-- The `{ is_active: true, start_time: now }` payload activating the next
task inside `handleEndTask`. -/
def activateWrite (now : Nat) (t : Task) : Task :=
  { t with is_active := true, start_time := some now }

/-- The predicate of `tasks.find(t => t.task_order === task.task_order + 1
&& !t.is_ended)` in `handleEndTask`. -/
def nextTaskPred (t : Task) (n : Task) : Bool :=
  n.task_order == t.task_order + 1 && !n.is_ended

/-- `handleEndTask` (`WorkshopTasksTab.tsx`): write the end payload to the
row with the ended task's id, then search the in-memory task list (the
stale `tasks` state, not the post-write table) for the first task with
`task_order` one above and `is_ended` false, and, when found, write the
activation payload to that row.  Both writes are modelled as succeeding;
the handler has no precondition check of its own. -/
def handleEndTask (now : Nat) (tasks : List Task) (t : Task) : List Task :=
  let afterEnd := updateWhere (fun m => m.id == t.id) endTaskWrite tasks
  match tasks.find? (nextTaskPred t) with
  | some n => updateWhere (fun m => m.id == n.id) (activateWrite now) afterEnd
  | none => afterEnd

/-- `toggleTaskActive` (`WorkshopTasksTab.tsx`): refuse with a destructive
toast when the task is ended (no write at all); otherwise write the
toggled `is_active` together with `start_time` stamped on activation and
cleared on deactivation (the payload is computed from the in-memory task,
not from the stored row).  The second component is the error toast, if
any. -/
def toggleTaskActive (now : Nat) (tasks : List Task) (t : Task) :
    List Task × Option String :=
  if t.is_ended then
    (tasks, some "Cannot activate an ended task")
  else
    (updateWhere (fun m => m.id == t.id)
      (fun m => { m with
        is_active := !t.is_active,
        start_time := if !t.is_active then some now else none }) tasks,
     none)

/-- `handleStartWorkshop` (`WorkshopOverviewTab.tsx`): a single
unconditional write of `{ status: 'live', updated_at: now }` to the
workshop row; no precondition on the current status is checked anywhere in
the handler.  `ok` is the outcome of the backend write (on failure the row
is unchanged and only a toast is shown). -/
def handleStartWorkshop (ok : Bool) (now : Nat) (w : Workshop) : Workshop :=
  if ok then { w with status := "live", updated_at := some now } else w

/-- The render guard of the Start Workshop button in
`WorkshopOverviewTab.tsx`: it is shown whenever `workshopStatus !== 'live'`
(so also when the status is `completed`). -/
def startButtonVisible (status : String) : Bool :=
  status != "live"

/-- The first write of `handleEndWorkshop`: `update({ is_active: false,
is_ended: true }).eq('workshop_id', workshopId)` — a bulk end of every
task of the workshop. -/
def endAllWorkshopTasks (wid : Nat) (ts : List Task) : List Task :=
  updateWhere (fun t => t.workshop_id == wid) endTaskWrite ts

/-- `handleEndWorkshop` (`WorkshopOverviewTab.tsx`): two independent
writes with no transaction and no rollback.  The first (bulk task end) is
`await`ed with its result discarded — its error is never inspected — and
the second (status := 'completed') is attempted regardless; each write's
success is its own `Bool`.  A failed write leaves its rows unchanged.
Note the status write does not touch `updated_at`. -/
def handleEndWorkshop (taskOk statusOk : Bool) (w : Workshop) (ts : List Task) :
    Workshop × List Task :=
  let ts1 := if taskOk then endAllWorkshopTasks w.id ts else ts
  let w1 := if statusOk then { w with status := "completed" } else w
  (w1, ts1)

/-- A row of `workshop_leaderboard` (the `LeaderboardEntry` interface of
`WorkshopLeaderboardTab`, staged inside `WorkshopParticipantsTab.tsx`):
persisted score, persisted nullable rank, tasks completed.  The joined
display-only fields (`workshop_groups`, `members`) are fetched for
rendering and never written, and are omitted. -/
structure LeaderboardEntry where
  id : Nat
  group_id : Nat
  total_score : Int
  tasks_completed : Int
  rank : Option Int
deriving DecidableEq, Repr

/-- The order realised by `sort((a, b) => b.total_score - a.total_score)`:
`a` may precede `b` exactly when `b.total_score ≤ a.total_score`
(descending by score; for ties the comparator returns 0 and the — per the
language specification stable — sort keeps prior array order, which is
what a stable insertion sort along this non-strict relation yields). -/
def scoreDescRel (a b : LeaderboardEntry) : Prop :=
  b.total_score ≤ a.total_score

instance : DecidableRel scoreDescRel := fun a b =>
  inferInstanceAs (Decidable (b.total_score ≤ a.total_score))

instance : IsTotal LeaderboardEntry scoreDescRel :=
  ⟨fun a b => le_total b.total_score a.total_score⟩

instance : IsTrans LeaderboardEntry scoreDescRel :=
  ⟨fun _ _ _ h1 h2 => le_trans h2 h1⟩

/-- One loop iteration of `refreshLeaderboard`:
`update({ rank: i + 1 }).eq('id', sortedEntries[i].id)` — write rank `r`
to every row whose id matches. -/
def updateRankById (eid : Nat) (r : Int) (lb : List LeaderboardEntry) :
    List LeaderboardEntry :=
  lb.map fun e => if e.id == eid then { e with rank := some r } else e

/-- The write loop of `refreshLeaderboard`: walk the sorted snapshot,
writing rank `r` to the row of the first snapshot entry, `r + 1` to the
next, and so on — one individual (non-batched) update per entry. -/
def applyRankWrites (r : Int) :
    List LeaderboardEntry → List LeaderboardEntry → List LeaderboardEntry
  | [], lb => lb
  | s :: rest, lb => applyRankWrites (r + 1) rest (updateRankById s.id r lb)

/-- `refreshLeaderboard` (`WorkshopLeaderboardTab`, staged inside
`WorkshopParticipantsTab.tsx`): take a sorted copy
`[...leaderboard].sort((a, b) => b.total_score - a.total_score)` of the
in-memory entries — a stable descending sort by `total_score`, modelled by
`insertionSort` along `scoreDescRel` — and then, for each position `i`,
write `rank: i + 1` to the row with the entry's id.  The table keeps its
own row order; only the `rank` column changes. -/
def refreshLeaderboard (lb : List LeaderboardEntry) : List LeaderboardEntry :=
  applyRankWrites 1 (lb.insertionSort scoreDescRel) lb

/-- `handleAdjustPoints` (`WorkshopLeaderboardTab`, staged inside
`WorkshopParticipantsTab.tsx`): compute
`newScore = adjustingEntry.total_score + pointsAdjustment` from the
in-memory entry (not the stored row) and write `{ total_score: newScore }`
to the row with the entry's id; `rank` is not part of the payload, and the
adjustment is unconstrained — negative totals are permitted. -/
def handleAdjustPoints (lb : List LeaderboardEntry)
    (entry : LeaderboardEntry) (delta : Int) : List LeaderboardEntry :=
  lb.map fun e =>
    if e.id == entry.id then { e with total_score := entry.total_score + delta }
    else e

/-- The digits `Number.prototype.toString(36)` can emit for the fractional
part of a number in `[0, 1)`: lowercase base-36. -/
def lowerBase36 : List Char :=
  "0123456789abcdefghijklmnopqrstuvwxyz".data

/-- The uppercase alphanumeric alphabet `[A-Z0-9]` of the spec. -/
def upperBase36 : List Char :=
  "0123456789ABCDEFGHIJKLMNOPQRSTUVWXYZ".data

/-- The character list of `Math.random().toString(36)`: JavaScript renders
a double in `[0, 1)` in base 36 as `"0"` when it is zero and otherwise as
`"0."` followed by the (shortest round-tripping) fractional digit
expansion `ds`; the expansion is as short as the value allows (e.g.
`(0.5).toString(36)` is `"0.i"`).  The double and its formatting are
abstracted into the digit list `ds`. -/
def randomBase36Chars (ds : List Char) : List Char :=
  if ds = [] then ['0'] else '0' :: '.' :: ds

/-- `generateCode` (src/unnamed/part_000, `WorkshopGroupsTab`):
`Math.random().toString(36).substring(2, 8).toUpperCase()` — drop the
leading `"0."` (the first two characters), keep at most the next six
characters, and uppercase them. -/
def generateCode (ds : List Char) : String :=
  String.mk ((((randomBase36Chars ds).drop 2).take 6).map Char.toUpper)

/-! ## Shared helper lemmas -/

theorem endTaskWrite_id (t : Task) : (endTaskWrite t).id = t.id := rfl

theorem activateWrite_id (now : Nat) (t : Task) :
    (activateWrite now t).id = t.id := rfl

/-- Generic: a filtered update never changes the id column. -/
theorem updateWhere_map_id (p : Task → Bool) (f : Task → Task)
    (hf : ∀ t, (f t).id = t.id) (ts : List Task) :
    (updateWhere p f ts).map Task.id = ts.map Task.id := by
  unfold updateWhere
  rw [List.map_map]
  apply List.map_congr_left
  intro t _
  simp only [Function.comp_apply]
  split <;> simp [hf]

/-- `handleEndTask` never changes the id column. -/
theorem handleEndTask_map_id (now : Nat) (tasks : List Task) (t : Task) :
    (handleEndTask now tasks t).map Task.id = tasks.map Task.id := by
  unfold handleEndTask
  cases h : tasks.find? (nextTaskPred t) with
  | none =>
    simp only [h]
    exact updateWhere_map_id _ _ endTaskWrite_id tasks
  | some n =>
    simp only [h]
    rw [updateWhere_map_id _ _ (activateWrite_id now),
        updateWhere_map_id _ _ endTaskWrite_id]

/-- When the ids are pairwise distinct, two members with the same id are
the same row. -/
theorem eq_of_mem_of_id_eq {tasks : List Task} {a b : Task}
    (hnd : (tasks.map Task.id).Nodup) (ha : a ∈ tasks) (hb : b ∈ tasks)
    (hid : a.id = b.id) : a = b := by
  induction tasks with
  | nil => cases ha
  | cons x xs ih =>
    rw [List.map_cons, List.nodup_cons] at hnd
    rcases List.mem_cons.mp ha with rfl | ha' <;>
      rcases List.mem_cons.mp hb with rfl | hb'
    · rfl
    · exact absurd (hid ▸ List.mem_map_of_mem Task.id hb') hnd.1
    · exact absurd (hid ▸ List.mem_map_of_mem Task.id ha') hnd.1
    · exact ih hnd.2 ha' hb'

/-- If `handleEndTask` found a next task, that task is a member of the
list, has the successor order and is not ended; hence (given distinct ids
and membership of the ended task) its id differs from the ended task's
id. -/
theorem find_next_ne_self {tasks : List Task} {t n : Task}
    (hmem : t ∈ tasks) (hnd : (tasks.map Task.id).Nodup)
    (hfind : tasks.find? (nextTaskPred t) = some n) : n.id ≠ t.id := by
  intro hid
  have hn : n ∈ tasks := List.mem_of_find?_eq_some hfind
  have hp : nextTaskPred t n = true := List.find?_some hfind
  have : n = t := eq_of_mem_of_id_eq hnd hn hmem hid
  subst this
  unfold nextTaskPred at hp
  simp only [Bool.and_eq_true, beq_iff_eq] at hp
  omega

/-- A successful `find?` splits the list into a prefix of failures, the
found element, and a suffix: the found element is the first match. -/
theorem find?_split {α : Type} (p : α → Bool) (l : List α) (a : α)
    (h : l.find? p = some a) :
    ∃ l1 l2, l = l1 ++ a :: l2 ∧ ∀ x ∈ l1, p x = false := by
  induction l with
  | nil => simp at h
  | cons b l ih =>
    by_cases hb : p b = true
    · rw [List.find?_cons_of_pos _ hb] at h
      obtain rfl : b = a := by injection h
      exact ⟨[], l, rfl, by simp⟩
    · rw [List.find?_cons_of_neg _ (by simpa using hb)] at h
      obtain ⟨l1, l2, hsplit, hfail⟩ := ih h
      refine ⟨b :: l1, l2, by simp [hsplit], ?_⟩
      intro x hx
      rcases List.mem_cons.mp hx with rfl | hx'
      · simpa using hb
      · exact hfail x hx'

/-- Rows whose id is neither the ended task's nor the activated task's id
pass through `handleEndTask` unchanged (and in particular stay in the
list). -/
theorem handleEndTask_frame (now : Nat) (tasks : List Task) (t : Task)
    (m : Task) (hm : m ∈ tasks) (hmt : m.id ≠ t.id)
    (hmn : ∀ n, tasks.find? (nextTaskPred t) = some n → m.id ≠ n.id) :
    m ∈ handleEndTask now tasks t := by
  unfold handleEndTask
  cases h : tasks.find? (nextTaskPred t) with
  | none =>
    simp only []
    unfold updateWhere
    have : (if (m.id == t.id) = true then endTaskWrite m else m) = m := by
      simp [hmt]
    exact this ▸ List.mem_map_of_mem _ hm
  | some n =>
    simp only []
    unfold updateWhere
    have h1 : (if (m.id == t.id) = true then endTaskWrite m else m) = m := by
      simp [hmt]
    have h2 : (if (m.id == n.id) = true then activateWrite now m else m) = m := by
      simp [hmn n h]
    have hm1 : m ∈ tasks.map fun x => if (x.id == t.id) = true then endTaskWrite x else x :=
      h1 ▸ List.mem_map_of_mem _ hm
    exact h2 ▸ List.mem_map_of_mem _ hm1

/-- In the output of `handleEndTask`, every row carrying the ended task's
id has `is_active = false` and `is_ended = true` (distinct ids keep the
activation write away from that row). -/
theorem handleEndTask_ends_self (now : Nat) (tasks : List Task) (t : Task)
    (hmem : t ∈ tasks) (hnd : (tasks.map Task.id).Nodup) :
    ∀ m ∈ handleEndTask now tasks t, m.id = t.id →
      m.is_active = false ∧ m.is_ended = true := by
  intro m hm hid
  unfold handleEndTask at hm
  cases h : tasks.find? (nextTaskPred t) with
  | none =>
    rw [h] at hm
    unfold updateWhere at hm
    obtain ⟨x, hx, rfl⟩ := List.mem_map.mp hm
    by_cases hxt : x.id = t.id
    · simp [hxt, endTaskWrite]
    · simp only [beq_iff_eq, hxt, if_neg] at hid ⊢
      exact absurd hid hxt
  | some n =>
    rw [h] at hm
    unfold updateWhere at hm
    obtain ⟨y, hy, rfl⟩ := List.mem_map.mp hm
    obtain ⟨x, hx, rfl⟩ := List.mem_map.mp hy
    have hne : n.id ≠ t.id := find_next_ne_self hmem hnd h
    by_cases hxt : x.id = t.id
    · have hxn : x.id ≠ n.id := fun hh => hne (by rw [← hh, hxt])
      simp [hxt, hxn, Ne.symm hne, endTaskWrite, activateWrite]
    · exfalso
      apply hxt
      have hex : (if (x.id == t.id) = true then endTaskWrite x else x) = x := by
        simp [hxt]
      rw [hex] at hid
      by_cases hxn : x.id = n.id
      · simpa [hxn, activateWrite] using hid
      · simpa [hxn] using hid

/-- In the output of `handleEndTask`, when a next task `n` was found,
every row carrying `n`'s id is activated with `start_time = now`. -/
theorem handleEndTask_activates_next (now : Nat) (tasks : List Task)
    (t n : Task) (hfind : tasks.find? (nextTaskPred t) = some n) :
    ∀ m ∈ handleEndTask now tasks t, m.id = n.id →
      m.is_active = true ∧ m.start_time = some now := by
  intro m hm hid
  unfold handleEndTask at hm
  rw [hfind] at hm
  unfold updateWhere at hm
  obtain ⟨y, _, rfl⟩ := List.mem_map.mp hm
  by_cases hyn : y.id = n.id
  · simp [hyn, activateWrite]
  · simp only [beq_iff_eq, hyn, if_neg] at hid ⊢
    exact absurd hid hyn

/-- Writing the end payload to a row that is already inactive and ended
does not change the row. -/
theorem endTaskWrite_eq_self {m : Task} (h1 : m.is_active = false)
    (h2 : m.is_ended = true) : endTaskWrite m = m := by
  cases m
  simp only [endTaskWrite] at *
  simp_all

/-- The image of the ended task itself inside the output of
`handleEndTask` is exactly the end-payload write of it. -/
theorem endTaskWrite_mem_handleEndTask (now : Nat) (tasks : List Task)
    (t : Task) (hmem : t ∈ tasks) (hnd : (tasks.map Task.id).Nodup) :
    endTaskWrite t ∈ handleEndTask now tasks t := by
  unfold handleEndTask
  cases h : tasks.find? (nextTaskPred t) with
  | none =>
    simp only []
    unfold updateWhere
    have : (if (t.id == t.id) = true then endTaskWrite t else t) = endTaskWrite t := by simp
    exact this ▸ List.mem_map_of_mem _ hmem
  | some n =>
    simp only []
    unfold updateWhere
    have hne : n.id ≠ t.id := find_next_ne_self hmem hnd h
    have h1 : (if (t.id == t.id) = true then endTaskWrite t else t) = endTaskWrite t := by simp
    have hmem1 : endTaskWrite t ∈
        tasks.map fun x => if (x.id == t.id) = true then endTaskWrite x else x :=
      h1 ▸ List.mem_map_of_mem _ hmem
    have h2 : (if ((endTaskWrite t).id == n.id) = true
        then activateWrite now (endTaskWrite t) else endTaskWrite t) = endTaskWrite t := by
      rw [endTaskWrite_id]
      have htn : t.id ≠ n.id := fun hh => hne hh.symm
      simp [htn]
    exact h2 ▸ List.mem_map_of_mem _ hmem1

/-- Re-writing the end payload to rows that already carry it is the
identity on the table. -/
theorem updateWhere_end_eq_self (ts : List Task) (tid : Nat)
    (h : ∀ m ∈ ts, m.id = tid → m.is_active = false ∧ m.is_ended = true) :
    updateWhere (fun m => m.id == tid) endTaskWrite ts = ts := by
  unfold updateWhere
  have hpt : ∀ x ∈ ts, (if (x.id == tid) = true then endTaskWrite x else x) = id x := by
    intro x hx
    by_cases hxe : x.id = tid
    · obtain ⟨h1, h2⟩ := h x hx hxe
      simp [hxe, endTaskWrite_eq_self h1 h2]
    · simp [hxe]
  rw [List.map_congr_left hpt, List.map_id]

/-- When the next-task search misses, `handleEndTask` is just the end
write. -/
theorem handleEndTask_of_find_none (now : Nat) (ts : List Task) (u : Task)
    (h : ts.find? (nextTaskPred u) = none) :
    handleEndTask now ts u
      = updateWhere (fun m => m.id == u.id) endTaskWrite ts := by
  unfold handleEndTask
  rw [h]

/-- Every row matching the id of a rank write carries that rank
afterwards. -/
theorem updateRankById_sets (eid : Nat) (r : Int)
    (lb : List LeaderboardEntry) :
    ∀ m ∈ updateRankById eid r lb, m.id = eid → m.rank = some r := by
  intro m hm hid
  obtain ⟨x, hx, rfl⟩ := List.mem_map.mp hm
  by_cases h : x.id = eid
  · simp [h]
  · have hxe : (if (x.id == eid) = true
        then { x with rank := some r } else x) = x := by simp [h]
    rw [hxe] at hid ⊢
    exact absurd hid h

/-- Rank writes whose target ids all differ from `eid` leave every row
with id `eid` exactly as it was in the input table. -/
theorem applyRankWrites_frame (eid : Nat) (rest : List LeaderboardEntry) :
    ∀ (r : Int) (lb : List LeaderboardEntry),
      eid ∉ rest.map (fun e => e.id) →
      ∀ m ∈ applyRankWrites r rest lb, m.id = eid → m ∈ lb := by
  induction rest with
  | nil =>
    intro r lb _ m hm _
    exact hm
  | cons s rest ih =>
    intro r lb hs m hm hid
    rw [List.map_cons, List.mem_cons, not_or] at hs
    have hm2 : m ∈ updateRankById s.id r lb :=
      ih (r + 1) (updateRankById s.id r lb) hs.2 m hm hid
    obtain ⟨x, hx, rfl⟩ := List.mem_map.mp hm2
    have hidx : (if (x.id == s.id) = true
        then { x with rank := some r } else x).id = x.id := by
      split <;> rfl
    rw [hidx] at hid
    by_cases h : x.id = s.id
    · exact absurd (hid.symm.trans h) hs.1
    · have hxe : (if (x.id == s.id) = true
          then { x with rank := some r } else x) = x := by simp [h]
      rw [hxe]
      exact hx

/-- After the write loop over a snapshot with pairwise-distinct ids, every
row carrying the id of the snapshot entry at position `k` has rank
`r + k`. -/
theorem applyRankWrites_rank (sorted : List LeaderboardEntry) :
    ∀ (r : Int) (lb : List LeaderboardEntry),
      ((sorted.map fun e => e.id).Nodup) →
      ∀ k (hk : k < sorted.length), ∀ m ∈ applyRankWrites r sorted lb,
        m.id = (sorted.get ⟨k, hk⟩).id → m.rank = some (r + (k : Int)) := by
  induction sorted with
  | nil =>
    intro r lb _ k hk
    exact absurd hk (Nat.not_lt_zero k)
  | cons s rest ih =>
    intro r lb hnd k hk m hm hid
    rw [List.map_cons, List.nodup_cons] at hnd
    cases k with
    | zero =>
      have hid0 : m.id = s.id := hid
      have hm2 : m ∈ updateRankById s.id r lb :=
        applyRankWrites_frame s.id rest (r + 1)
          (updateRankById s.id r lb) hnd.1 m hm hid0
      have := updateRankById_sets s.id r lb m hm2 hid0
      simpa using this
    | succ j =>
      have hj : j < rest.length := by simpa using hk
      have hidj : m.id = (rest.get ⟨j, hj⟩).id := hid
      have hr := ih (r + 1) (updateRankById s.id r lb) hnd.2 j hj m hm hidj
      rw [hr]
      congr 1
      push_cast
      ring

/-- Uppercasing a lowercase base-36 digit lands in `[A-Z0-9]`. -/
theorem toUpper_mem_upperBase36 : ∀ c ∈ lowerBase36, Char.toUpper c ∈ upperBase36 := by
  decide

/-! ## Concrete fixtures -/

/-- Demo task with order 1, currently active (the spec's `{1,2,3}`
task-advance scenario). -/
def demoTask1 : Task :=
  { id := 1, workshop_id := 7, title := "Task one", description := none,
    points := 10, timer_minutes := some 30, is_active := true,
    is_ended := false, task_order := 1, start_time := some 0 }

/-- Demo task with order 2, inactive, not ended. -/
def demoTask2 : Task :=
  { id := 2, workshop_id := 7, title := "Task two", description := none,
    points := 10, timer_minutes := some 30, is_active := false,
    is_ended := false, task_order := 2, start_time := none }

/-- Demo task with order 3, inactive, not ended. -/
def demoTask3 : Task :=
  { id := 3, workshop_id := 7, title := "Task three", description := none,
    points := 10, timer_minutes := some 30, is_active := false,
    is_ended := false, task_order := 3, start_time := none }

/-- The demo task table (orders 1, 2, 3). -/
def demoTasks : List Task := [demoTask1, demoTask2, demoTask3]

/-- A demo task that has already been ended. -/
def endedTask : Task :=
  { id := 9, workshop_id := 7, title := "Done", description := none,
    points := 5, timer_minutes := none, is_active := false,
    is_ended := true, task_order := 4, start_time := none }

/-- A demo workshop that is live. -/
def demoWorkshop : Workshop := { id := 7, status := "live", updated_at := none }

/-- Leaderboard fixture A, score 30, rank not yet assigned (spec §8
example). -/
def entryA : LeaderboardEntry :=
  { id := 1, group_id := 11, total_score := 30, tasks_completed := 0, rank := none }

/-- Leaderboard fixture B, score 50. -/
def entryB : LeaderboardEntry :=
  { id := 2, group_id := 12, total_score := 50, tasks_completed := 0, rank := none }

/-- Leaderboard fixture C, score 50. -/
def entryC : LeaderboardEntry :=
  { id := 3, group_id := 13, total_score := 50, tasks_completed := 0, rank := none }

/-- Leaderboard fixture D, score 10. -/
def entryD : LeaderboardEntry :=
  { id := 4, group_id := 14, total_score := 10, tasks_completed := 0, rank := none }

/-- The spec §8 leaderboard example: entries `[A, B, C, D]` with scores
`[30, 50, 50, 10]`. -/
def demoEntries : List LeaderboardEntry := [entryA, entryB, entryC, entryD]

/-! ## Claims -/

/-- C2 (code evaluated at the failing input): on a workshop whose status
is `completed`, the Start Workshop button is still rendered (the guard is
only `status !== 'live'`) and `handleStartWorkshop`, whose write succeeds,
transitions the status back to `live` — nothing rejects the call, so
`completed` is not terminal in the code. -/
theorem startWorkshop_completed_goes_live :
    startButtonVisible "completed" = true ∧
    (handleStartWorkshop true 99
      { id := 3, status := "completed", updated_at := none }).status = "live" := by
  decide

/-- C3: activating an ended task fails with the destructive toast
`"Cannot activate an ended task"` and performs no write: the task table is
returned exactly as it was, so every field of every task — including the
ended task's `is_active` and `start_time` — is unchanged. -/
theorem toggleTaskActive_ended_fails (now : Nat) (tasks : List Task)
    (t : Task) (h : t.is_ended = true) :
    toggleTaskActive now tasks t
      = (tasks, some "Cannot activate an ended task") := by
  unfold toggleTaskActive
  simp [h]

/-- Witness for C3 at an ended task over the demo table. -/
theorem toggleTaskActive_ended_fails_witness :
    endedTask.is_ended = true ∧
    toggleTaskActive 3 demoTasks endedTask
      = (demoTasks, some "Cannot activate an ended task") :=
  ⟨by decide, toggleTaskActive_ended_fails 3 demoTasks endedTask (by decide)⟩

/-- C5: with both writes succeeding, ending a live workshop leaves every
task of that workshop inactive and ended, leaves tasks of other workshops
untouched, and sets the workshop status to `completed`. -/
theorem endWorkshop_cascade (w : Workshop) (ts : List Task)
    (h : w.status = "live") :
    ((handleEndWorkshop true true w ts).1.status = "completed") ∧
    (∀ m ∈ (handleEndWorkshop true true w ts).2, m.workshop_id = w.id →
        m.is_active = false ∧ m.is_ended = true) ∧
    (∀ m ∈ ts, m.workshop_id ≠ w.id →
        m ∈ (handleEndWorkshop true true w ts).2) := by
  refine ⟨rfl, ?_, ?_⟩
  · intro m hm hwid
    simp only [handleEndWorkshop, endAllWorkshopTasks, updateWhere, if_pos] at hm
    obtain ⟨x, hx, rfl⟩ := List.mem_map.mp hm
    by_cases hxw : x.workshop_id = w.id
    · simp [hxw, endTaskWrite]
    · simp only [beq_iff_eq, hxw, if_neg, if_false] at hwid
  · intro m hm hwid
    simp only [handleEndWorkshop, endAllWorkshopTasks, updateWhere, if_pos]
    have : (if (m.workshop_id == w.id) = true then endTaskWrite m else m) = m := by
      simp [hwid]
    exact this ▸ List.mem_map_of_mem _ hm

/-- Witness for C5: the live demo workshop with its three non-ended demo
tasks. -/
theorem endWorkshop_cascade_witness :
    demoWorkshop.status = "live" ∧
    (((handleEndWorkshop true true demoWorkshop demoTasks).1.status = "completed") ∧
     (∀ m ∈ (handleEndWorkshop true true demoWorkshop demoTasks).2,
        m.workshop_id = demoWorkshop.id → m.is_active = false ∧ m.is_ended = true) ∧
     (∀ m ∈ demoTasks, m.workshop_id ≠ demoWorkshop.id →
        m ∈ (handleEndWorkshop true true demoWorkshop demoTasks).2)) :=
  ⟨by decide, endWorkshop_cascade demoWorkshop demoTasks (by decide)⟩

/-- C6: the cascade is not atomic — when the bulk task write succeeds but
the status write fails, every task of the workshop is left ended and
inactive while the workshop row (hence its status `live`) is untouched. -/
theorem endWorkshop_partial_failure (w : Workshop) (ts : List Task)
    (h : w.status = "live") :
    (∀ m ∈ (handleEndWorkshop true false w ts).2, m.workshop_id = w.id →
        m.is_active = false ∧ m.is_ended = true) ∧
    ((handleEndWorkshop true false w ts).1 = w) ∧
    ((handleEndWorkshop true false w ts).1.status = "live") := by
  refine ⟨?_, rfl, h⟩
  intro m hm hwid
  simp only [handleEndWorkshop, endAllWorkshopTasks, updateWhere, if_pos] at hm
  obtain ⟨x, hx, rfl⟩ := List.mem_map.mp hm
  by_cases hxw : x.workshop_id = w.id
  · simp [hxw, endTaskWrite]
  · simp only [beq_iff_eq, hxw, if_neg, if_false] at hwid

/-- Witness for C6 on the live demo workshop. -/
theorem endWorkshop_partial_failure_witness :
    demoWorkshop.status = "live" ∧
    ((∀ m ∈ (handleEndWorkshop true false demoWorkshop demoTasks).2,
        m.workshop_id = demoWorkshop.id → m.is_active = false ∧ m.is_ended = true) ∧
     ((handleEndWorkshop true false demoWorkshop demoTasks).1 = demoWorkshop) ∧
     ((handleEndWorkshop true false demoWorkshop demoTasks).1.status = "live")) :=
  ⟨by decide, endWorkshop_partial_failure demoWorkshop demoTasks (by decide)⟩

/-- C10: the result of the bulk task write is never inspected — the status
write is attempted (and, succeeding, sets `completed`) for every outcome
of the first write; in particular a failed task write followed by a
successful status write leaves the tasks exactly as they were (so not
ended, if they were not) under a `completed` status. -/
theorem endWorkshop_status_write_unconditional (taskOk : Bool)
    (w : Workshop) (ts : List Task) :
    ((handleEndWorkshop taskOk true w ts).1.status = "completed") ∧
    ((handleEndWorkshop false true w ts).2 = ts) :=
  ⟨rfl, rfl⟩

/-- C7 counterexample: the claimed example ranks are wrong against the
code.  `refreshLeaderboard` on `[A, B, C, D]` with scores
`[30, 50, 50, 10]` keeps the table order and writes the ranks of the
descending sort, so the claimed assignment `A=4, B=1, C=2, D=3` — which
would be the table `[A@4, B@1, C@2, D@3]` — is not the result: entry A
(score 30) outranks entry D (score 10). -/
theorem refreshLeaderboard_example_claimed_ranks_false :
    refreshLeaderboard demoEntries ≠
      [{ entryA with rank := some 4 }, { entryB with rank := some 1 },
       { entryC with rank := some 2 }, { entryD with rank := some 3 }] := by
  decide

/-- C7 (amended): `refreshLeaderboard` is a stable sort by `total_score`
descending with `rank = position + 1`, ties broken only by prior array
order; on the spec's input `[A, B, C, D]` with scores `[30, 50, 50, 10]`
it yields ranks `A=3, B=1, C=2, D=4`, with B before C in the sorted
snapshot.  The general clauses: the sorted snapshot is a permutation of
the entries, it is sorted by score descending, and — for pairwise-distinct
ids — the row carrying the id of the snapshot entry at position `k` ends
with rank `k + 1`. -/
theorem refreshLeaderboard_stable_sort_desc :
    (refreshLeaderboard demoEntries =
      [{ entryA with rank := some 3 }, { entryB with rank := some 1 },
       { entryC with rank := some 2 }, { entryD with rank := some 4 }]) ∧
    (demoEntries.insertionSort scoreDescRel = [entryB, entryC, entryA, entryD]) ∧
    (∀ es : List LeaderboardEntry, (es.insertionSort scoreDescRel).Perm es) ∧
    (∀ es : List LeaderboardEntry,
        List.Sorted scoreDescRel (es.insertionSort scoreDescRel)) ∧
    (∀ es : List LeaderboardEntry, ((es.map fun e => e.id).Nodup) →
        ∀ k (hk : k < (es.insertionSort scoreDescRel).length),
          ∀ m ∈ refreshLeaderboard es,
            m.id = ((es.insertionSort scoreDescRel).get ⟨k, hk⟩).id →
              m.rank = some (1 + (k : Int))) := by
  refine ⟨by decide, by decide, fun es => List.perm_insertionSort _ es,
    fun es => List.sorted_insertionSort _ es, fun es hnd k hk m hm hid => ?_⟩
  have hnds : ((es.insertionSort scoreDescRel).map fun e => e.id).Nodup :=
    ((List.perm_insertionSort scoreDescRel es).map (fun e => e.id)).nodup_iff.mpr hnd
  exact applyRankWrites_rank (es.insertionSort scoreDescRel) 1 es hnds k hk m hm hid

/-- Witness for the rank-position clause of C7 (amended): on the demo
entries (distinct ids), the row carrying the id of the sorted snapshot's
head — entry B — ends with rank 1. -/
theorem refreshLeaderboard_stable_sort_desc_witness :
    ((demoEntries.map fun e => e.id).Nodup) ∧
    0 < (demoEntries.insertionSort scoreDescRel).length ∧
    (∀ m ∈ refreshLeaderboard demoEntries,
        m.id = ((demoEntries.insertionSort scoreDescRel).get
            ⟨0, by decide⟩).id →
          m.rank = some (1 + ((0 : Nat) : Int))) :=
  ⟨by decide, by decide,
    refreshLeaderboard_stable_sort_desc.2.2.2.2 demoEntries (by decide)
      0 (by decide)⟩

/-- C8: `handleAdjustPoints` writes `entry.total_score + delta` (delta of
either sign, with no lower bound on the result) to the matching row's
`total_score` and leaves every `rank` field of every entry unchanged —
ranks move only on an explicit `refreshLeaderboard`. -/
theorem handleAdjustPoints_frame (lb : List LeaderboardEntry)
    (entry : LeaderboardEntry) (delta : Int) :
    ((handleAdjustPoints lb entry delta).map (fun e => e.rank)
      = lb.map (fun e => e.rank)) ∧
    ((handleAdjustPoints lb entry delta).map (fun e => e.total_score)
      = lb.map (fun e =>
          if e.id = entry.id then entry.total_score + delta
          else e.total_score)) := by
  unfold handleAdjustPoints
  constructor <;>
    · rw [List.map_map]
      apply List.map_congr_left
      intro e _
      by_cases h : e.id = entry.id <;> simp [h]

/-- C9 counterexample: the random source can make the code shorter than 6
characters.  `Math.random()` can return `0.5`, whose base-36 rendering is
`"0.i"` (a single fractional digit), so `generateCode` yields the
1-character string `"I"`, not a 6-character string. -/
theorem generateCode_half_is_short :
    'i' ∈ lowerBase36 ∧ generateCode ['i'] = "I" ∧
    (generateCode ['i']).length ≠ 6 := by
  decide

/-- C9 (amended): for every value of the random source (abstracted as its
base-36 fractional digit list `ds`), the generated code consists only of
characters from `[A-Z0-9]` and has length `min 6 ds.length` — exactly 6
characters whenever the expansion has at least 6 digits, fewer
otherwise. -/
theorem generateCode_length_charset (ds : List Char)
    (hds : ∀ c ∈ ds, c ∈ lowerBase36) :
    (generateCode ds).length = min 6 ds.length ∧
    ∀ c ∈ (generateCode ds).data, c ∈ upperBase36 := by
  unfold generateCode randomBase36Chars
  by_cases h : ds = []
  · subst h
    exact ⟨rfl, by intro c hc; cases hc⟩
  · rw [if_neg h]
    constructor
    · show ((ds.take 6).map Char.toUpper).length = min 6 ds.length
      rw [List.length_map, List.length_take]
    · intro c hc
      obtain ⟨d, hd, rfl⟩ := List.mem_map.mp hc
      exact toUpper_mem_upperBase36 d (hds d (List.mem_of_mem_take hd))

/-- Witness for C9 (amended) on a 7-digit expansion: the code is the first
6 digits uppercased. -/
theorem generateCode_length_charset_witness :
    (∀ c ∈ ['a', 'b', 'c', '1', '2', '3', 'k'], c ∈ lowerBase36) ∧
    ((generateCode ['a', 'b', 'c', '1', '2', '3', 'k']).length
        = min 6 ['a', 'b', 'c', '1', '2', '3', 'k'].length ∧
     ∀ c ∈ (generateCode ['a', 'b', 'c', '1', '2', '3', 'k']).data,
        c ∈ upperBase36) :=
  ⟨by decide, generateCode_length_charset _ (by decide)⟩

/-- C1: `end(T)` sets `T` to `is_active = false, is_ended = true`, and then
exactly the first task `N` of the in-memory list with
`N.task_order = T.task_order + 1` and `N.is_ended = false` — when one
exists — is activated with `is_active = true` and `start_time = now`,
every other row passing through unchanged; when none exists, no task is
activated (every row other than `T`'s is unchanged). -/
theorem handleEndTask_advances_first_next (now : Nat) (tasks : List Task)
    (t : Task) (hmem : t ∈ tasks) (hnd : (tasks.map Task.id).Nodup) :
    (∀ m ∈ handleEndTask now tasks t, m.id = t.id →
        m.is_active = false ∧ m.is_ended = true) ∧
    (∀ n, tasks.find? (nextTaskPred t) = some n →
        (n.task_order = t.task_order + 1 ∧ n.is_ended = false) ∧
        (∃ l1 l2, tasks = l1 ++ n :: l2 ∧ ∀ x ∈ l1, nextTaskPred t x = false) ∧
        (∀ m ∈ handleEndTask now tasks t, m.id = n.id →
            m.is_active = true ∧ m.start_time = some now) ∧
        (∀ m ∈ tasks, m.id ≠ t.id → m.id ≠ n.id →
            m ∈ handleEndTask now tasks t)) ∧
    (tasks.find? (nextTaskPred t) = none →
        (∀ m ∈ tasks, ¬(m.task_order = t.task_order + 1 ∧ m.is_ended = false)) ∧
        (∀ m ∈ tasks, m.id ≠ t.id → m ∈ handleEndTask now tasks t)) := by
  refine ⟨handleEndTask_ends_self now tasks t hmem hnd, ?_, ?_⟩
  · intro n hfind
    have hp : nextTaskPred t n = true := List.find?_some hfind
    unfold nextTaskPred at hp
    simp only [Bool.and_eq_true, beq_iff_eq, Bool.not_eq_true'] at hp
    refine ⟨hp, find?_split _ tasks n hfind,
      handleEndTask_activates_next now tasks t n hfind, ?_⟩
    intro m hm hmt hmn
    refine handleEndTask_frame now tasks t m hm hmt ?_
    intro n' hf
    rw [hfind] at hf
    injection hf with hf'
    exact hf' ▸ hmn
  · intro hnone
    constructor
    · intro m hm hcon
      have hpm : nextTaskPred t m = true := by
        unfold nextTaskPred
        simp [hcon.1, hcon.2]
      exact List.find?_eq_none.mp hnone m hm hpm
    · intro m hm hmt
      refine handleEndTask_frame now tasks t m hm hmt ?_
      intro n' hf
      rw [hnone] at hf
      cases hf

/-- Witness for C1: the `{1, 2, 3}` demo table; ending the order-1 task
finds and activates the order-2 task. -/
theorem handleEndTask_advances_first_next_witness :
    demoTask1 ∈ demoTasks ∧ (demoTasks.map Task.id).Nodup ∧
    ((∀ m ∈ handleEndTask 5 demoTasks demoTask1, m.id = demoTask1.id →
        m.is_active = false ∧ m.is_ended = true) ∧
     (∀ n, demoTasks.find? (nextTaskPred demoTask1) = some n →
        (n.task_order = demoTask1.task_order + 1 ∧ n.is_ended = false) ∧
        (∃ l1 l2, demoTasks = l1 ++ n :: l2 ∧
            ∀ x ∈ l1, nextTaskPred demoTask1 x = false) ∧
        (∀ m ∈ handleEndTask 5 demoTasks demoTask1, m.id = n.id →
            m.is_active = true ∧ m.start_time = some 5) ∧
        (∀ m ∈ demoTasks, m.id ≠ demoTask1.id → m.id ≠ n.id →
            m ∈ handleEndTask 5 demoTasks demoTask1)) ∧
     (demoTasks.find? (nextTaskPred demoTask1) = none →
        (∀ m ∈ demoTasks,
            ¬(m.task_order = demoTask1.task_order + 1 ∧ m.is_ended = false)) ∧
        (∀ m ∈ demoTasks, m.id ≠ demoTask1.id →
            m ∈ handleEndTask 5 demoTasks demoTask1))) :=
  ⟨by decide, by decide,
    handleEndTask_advances_first_next 5 demoTasks demoTask1 (by decide) (by decide)⟩

/-- C4 counterexample: the second `end` is not a no-op on stored state.
End the order-1 demo task at time 10 (which activates the order-2 task
with `start_time = 10`), then end it again at time 20: the second call
finds the order-2 task — still not ended — and re-stamps its `start_time`
to 20, so stored state changes. -/
theorem endTask_twice_not_noop :
    handleEndTask 20 (handleEndTask 10 demoTasks demoTask1)
        (endTaskWrite demoTask1)
      ≠ handleEndTask 10 demoTasks demoTask1 := by
  decide

/-- C4 (amended): `end(T)` is idempotent in its terminal effect — after
either call every row carrying `T`'s id has `is_active = false` and
`is_ended = true`, and the second call raises no precondition error (the
handler has none) — but it is a no-op on stored state only when the second
call finds no non-ended task with order `T.task_order + 1`; when it finds
one, that task is re-activated with its `start_time` re-stamped to the
second call's current time. -/
theorem endTask_idempotent_terminal (now1 now2 : Nat) (tasks : List Task)
    (t : Task) (hmem : t ∈ tasks) (hnd : (tasks.map Task.id).Nodup) :
    (∀ m ∈ handleEndTask now1 tasks t, m.id = t.id →
        m.is_active = false ∧ m.is_ended = true) ∧
    (∀ m ∈ handleEndTask now2 (handleEndTask now1 tasks t) (endTaskWrite t),
        m.id = t.id → m.is_active = false ∧ m.is_ended = true) ∧
    ((handleEndTask now1 tasks t).find? (nextTaskPred (endTaskWrite t)) = none →
        handleEndTask now2 (handleEndTask now1 tasks t) (endTaskWrite t)
          = handleEndTask now1 tasks t) ∧
    (∀ n, (handleEndTask now1 tasks t).find? (nextTaskPred (endTaskWrite t))
          = some n →
        ∀ m ∈ handleEndTask now2 (handleEndTask now1 tasks t) (endTaskWrite t),
          m.id = n.id → m.is_active = true ∧ m.start_time = some now2) := by
  have hnd1 : ((handleEndTask now1 tasks t).map Task.id).Nodup := by
    rw [handleEndTask_map_id]
    exact hnd
  have hmem1 : endTaskWrite t ∈ handleEndTask now1 tasks t :=
    endTaskWrite_mem_handleEndTask now1 tasks t hmem hnd
  have hfirst := handleEndTask_ends_self now1 tasks t hmem hnd
  refine ⟨hfirst, ?_, ?_, ?_⟩
  · intro m hm hid
    exact handleEndTask_ends_self now2 (handleEndTask now1 tasks t)
      (endTaskWrite t) hmem1 hnd1 m hm (by rw [endTaskWrite_id]; exact hid)
  · intro hnone
    rw [handleEndTask_of_find_none now2 _ _ hnone]
    exact updateWhere_end_eq_self (handleEndTask now1 tasks t)
      (endTaskWrite t).id
      (fun m hm hid => hfirst m hm (by rw [← endTaskWrite_id t]; exact hid))
  · intro n hfind
    exact handleEndTask_activates_next now2 (handleEndTask now1 tasks t)
      (endTaskWrite t) n hfind

/-- Witness for C4 (amended) on the `{1, 2, 3}` demo table, ending the
order-1 task at times 10 and then 20. -/
theorem endTask_idempotent_terminal_witness :
    demoTask1 ∈ demoTasks ∧ (demoTasks.map Task.id).Nodup ∧
    ((∀ m ∈ handleEndTask 10 demoTasks demoTask1, m.id = demoTask1.id →
        m.is_active = false ∧ m.is_ended = true) ∧
     (∀ m ∈ handleEndTask 20 (handleEndTask 10 demoTasks demoTask1)
          (endTaskWrite demoTask1),
        m.id = demoTask1.id → m.is_active = false ∧ m.is_ended = true) ∧
     ((handleEndTask 10 demoTasks demoTask1).find?
          (nextTaskPred (endTaskWrite demoTask1)) = none →
        handleEndTask 20 (handleEndTask 10 demoTasks demoTask1)
            (endTaskWrite demoTask1)
          = handleEndTask 10 demoTasks demoTask1) ∧
     (∀ n, (handleEndTask 10 demoTasks demoTask1).find?
            (nextTaskPred (endTaskWrite demoTask1)) = some n →
        ∀ m ∈ handleEndTask 20 (handleEndTask 10 demoTasks demoTask1)
            (endTaskWrite demoTask1),
          m.id = n.id → m.is_active = true ∧ m.start_time = some 20)) :=
  ⟨by decide, by decide,
    endTask_idempotent_terminal 10 20 demoTasks demoTask1 (by decide) (by decide)⟩

end WorkshopApp
